import Mathlib

/-!
# Verification of the `cfx-article-src` performance-analysis scripts

Shallow embedding of the three Python scripts
`analyze_performance_correct.py`, `analyze_performance_fixed.py` and
`analyze_performance_manual.py`.

Modelling conventions:
* The input file is given as its list of lines (each line holds no newline
  character); this matches `f.readlines()` up to the trailing newline that
  every substring test in the scripts ignores.
* Python `float` values are modelled as rationals `ℚ`; the scripts only
  parse decimal literals and compute means/variances, and the spec states
  there are no numeric-stability concerns.
* `numpy.std` returns the non-negative square root of the population
  variance; we keep the exact rational square (`Stats.std2`) in the record
  and phrase standard-deviation statements through `Real.sqrt`.
* An uncaught Python exception (for example `float('1.2.3')` raising
  `ValueError`) is modelled by the parser returning `none`.
-/

namespace Perf

/-- `startsWithL pat s` is Python `s.startswith(pat)` on character lists. -/
def startsWithL : List Char → List Char → Bool
  | [], _ => true
  | _ :: _, [] => false
  | p :: ps, c :: cs => p == c && startsWithL ps cs

/-- `containsSub pat s` is Python `pat in s` (substring test) on character
lists. -/
def containsSub (pat : List Char) : List Char → Bool
  | [] => startsWithL pat []
  | c :: cs => startsWithL pat (c :: cs) || containsSub pat cs

/-- Index of the first occurrence of `pat` in `s`, as used by `re.split`
when it locates a `Copy with.*` match inside a line. -/
def findSub (pat : List Char) : List Char → Option Nat
  | [] => if startsWithL pat [] then some 0 else none
  | c :: cs =>
    if startsWithL pat (c :: cs) then some 0
    else (findSub pat cs).map (· + 1)

/-- Python `str.strip()` on character lists. -/
def stripChars (s : List Char) : List Char :=
  ((s.dropWhile Char.isWhitespace).reverse.dropWhile Char.isWhitespace).reverse

/-- Python `str.strip()`. -/
def strip (s : String) : String := ⟨stripChars s.data⟩

/-- Decimal digit run to a natural number. -/
def digitsToNat (ds : List Char) : Nat :=
  ds.foldl (fun n c => 10 * n + (c.toNat - '0'.toNat)) 0

/-- Python `float(tok)` for a token drawn from the regex class `[\d.]+`:
defined (`some`) exactly when the token has at least one digit and at most
one dot; otherwise `float` raises `ValueError`, modelled as `none`. -/
def pyFloat (tok : List Char) : Option ℚ :=
  if tok.all (fun c => c.isDigit || c == '.') && tok.any (fun c => c.isDigit)
      && decide (tok.count '.' ≤ 1) then
    let ip := tok.takeWhile (fun c => c != '.')
    let rest := tok.dropWhile (fun c => c != '.')
    match rest with
    | [] => some (digitsToNat ip : ℚ)
    | _ :: frac =>
        some ((digitsToNat ip : ℚ) + (digitsToNat frac : ℚ) / (10 : ℚ) ^ frac.length)
  else none

/-- The pattern `Completed in ` that precedes the captured numeric token. -/
def cinPat : List Char := "Completed in ".data

/-- `re.search(r'Completed in ([\d.]+)ms', line)`: scan for an occurrence
of `Completed in ` followed by a non-empty maximal run of `[\d.]` followed
by `ms`; returns the captured token.  (Backtracking inside the character
class is impossible because `m` is not in the class, so only the maximal
run has to be examined at each position.) -/
def findCompleted : List Char → Option (List Char)
  | [] => none
  | c :: t =>
    if startsWithL cinPat (c :: t) then
      let rest := (c :: t).drop cinPat.length
      let tok := rest.takeWhile (fun x => x.isDigit || x == '.')
      if tok.isEmpty then findCompleted t
      else if startsWithL "ms".data (rest.drop tok.length) then some tok
      else findCompleted t
    else findCompleted t

/-- One parsed test case: `name`/`multicast`/`deep_copy`/`times` exactly as
in the Python dictionaries.  `deep_copy` is `Option String` because
`analyze_performance_fixed.py` stores `None` there until a marker is seen. -/
structure TestCase where
  name : String
  multicast : Bool
  deep_copy : Option String
  times : List ℚ
deriving DecidableEq, Repr

/-- Header line of the baseline section. -/
def hdr1 : String := "Copy with TMA load and store -- no swizzling"
/-- Header line of the multicast section. -/
def hdr2 : String := "Copy with TMA Multicast load and store"
/-- Header line of the no-multicast section. -/
def hdr3 : String := "Copy with TMA load and store, NO multicast"

/-- Per-line trial handling shared by the three scripts: if the line
contains `Trial` and `Completed in`, run the regex; a regex miss is a
silent skip (`some none`), a regex hit with an unparseable float is an
uncaught `ValueError` (`none`), a hit with a parseable float yields the
time (`some (some q)`). -/
def trialOfLine (l : String) : Option (Option ℚ) :=
  if containsSub "Trial".data l.data && containsSub "Completed in".data l.data then
    match findCompleted l.data with
    | none => some none
    | some tok =>
      match pyFloat tok with
      | none => none
      | some q => some (some q)
  else some none

/-! ## `analyze_performance_correct.py`: regex-section splitting parser -/

/-- A piece produced by `re.split(r'(Copy with.*)', content)`: either a
captured header (the text from `Copy with` to the end of its line) or a
body, kept as its list of newline-free segments (substring tests and the
later `section.split('\n')` only ever see those segments, because none of
the tested patterns contains a newline). -/
inductive Piece where
  | header (h : String)
  | body (segs : List String)

/-- The splitting pass of `re.split(r'(Copy with.*)', content)` over the
lines of the file; `segs` accumulates the segments of the body piece being
built. -/
def splitGo : List String → List String → List Piece
  | [], segs => [.body segs]
  | l :: rest, segs =>
    match findSub "Copy with".data l.data with
    | none => splitGo rest (segs ++ [l])
    | some k =>
        .body (segs ++ [⟨l.data.take k⟩]) :: .header ⟨l.data.drop k⟩ :: splitGo rest []

/-- `pat in section` for a body piece, i.e. some segment contains `pat`. -/
def bodyHas (pat : String) (segs : List String) : Bool :=
  segs.any (fun s => containsSub pat.data s.data)

/-- The trial-extraction loop of `analyze_performance_correct.py` (lines
35-40): scan the section's segments, silently skipping regex misses and
raising (`none`) when a captured token is not a valid float. -/
def extractTimes : List String → Option (List ℚ)
  | [] => some []
  | l :: rest =>
    match trialOfLine l with
    | none => none
    | some none => extractTimes rest
    | some (some q) => (extractTimes rest).map (q :: ·)

/-- The name/multicast/deep-copy classification of
`analyze_performance_correct.py` (lines 43-57), applied to the stripped
current header; `none` models the `else: continue` branch. -/
def classify (cs : String) (deep : Option String) : Option (String × Bool × String) :=
  if containsSub "no swizzling".data cs.data then
    some ("TMA No Swizzling", false, "1X")
  else if containsSub "Multicast".data cs.data
      && !(containsSub "NO multicast".data cs.data) then
    some ("TMA Multicast", true, deep.getD "Unknown")
  else if containsSub "NO multicast".data cs.data then
    some ("TMA No Multicast", false, deep.getD "Unknown")
  else none

/-- The main loop of `parse_performance_data` in
`analyze_performance_correct.py` over the split pieces, carrying
`current_section` and `current_deep_copy`. -/
def processPieces : List Piece → Option String → Option String → Option (List TestCase)
  | [], _, _ => some []
  | .header h :: rest, _, _ => processPieces rest (some (strip h)) none
  | .body segs :: rest, cs, deep =>
    if bodyHas "Deep copy 2X" segs then processPieces rest cs (some "2X")
    else if bodyHas "Deep copy 4X" segs then processPieces rest cs (some "4X")
    else
      match cs with
      | none => processPieces rest cs deep
      | some c =>
        if bodyHas "Trial" segs then
          match extractTimes segs with
          | none => none
          | some times =>
            if times.isEmpty then processPieces rest cs deep
            else
              match classify c deep with
              | none => processPieces rest cs deep
              | some (n, m, d) =>
                  (processPieces rest cs deep).map (fun tcs => ⟨n, m, some d, times⟩ :: tcs)
        else processPieces rest cs deep

/-- `parse_performance_data` of `analyze_performance_correct.py`. -/
def parse_correct (ls : List String) : Option (List TestCase) :=
  processPieces (splitGo ls []) none none

/-! ## `analyze_performance_fixed.py`: stateful line-scanning parser -/

/-- The `elif` chain of `analyze_performance_fixed.py` (lines 24-54) on one
stripped line: returns the new `current_case` and `test_cases`, or `none`
when `float` raises on a regex-captured token. -/
def fixedStep (line : String) (cur : Option TestCase) (acc : List TestCase) :
    Option (Option TestCase × List TestCase) :=
  if containsSub hdr1.data line.data then
    some (some ⟨"TMA No Swizzling", false, some "1X", []⟩, acc)
  else if containsSub hdr2.data line.data then
    some (some ⟨"TMA Multicast", true, none, []⟩, acc)
  else if containsSub hdr3.data line.data then
    some (some ⟨"TMA No Multicast", false, none, []⟩, acc)
  else
    match cur with
    | none => some (none, acc)
    | some c =>
      if startsWithL "Trial".data line.data
          && containsSub "Completed in".data line.data then
        match findCompleted line.data with
        | none => some (some c, acc)
        | some tok =>
          match pyFloat tok with
          | none => none
          | some q => some (some ⟨c.name, c.multicast, c.deep_copy, c.times ++ [q]⟩, acc)
      else if startsWithL "Success".data line.data && !c.times.isEmpty then
        some (none, acc ++ [c])
      else some (some c, acc)

/-- The deep-copy lookahead of `analyze_performance_fixed.py` (lines
57-66): scan the next (at most) four raw lines, stripping each, for a
marker; the first marker line wins. -/
def lookDeep : List String → Option String
  | [] => none
  | l :: ls =>
    if containsSub "Deep copy 2X".data (strip l).data then some "2X"
    else if containsSub "Deep copy 4X".data (strip l).data then some "4X"
    else lookDeep ls

/-- Apply the lookahead to the current case when its `deep_copy` is still
`None`. -/
def lookaheadFix (cur : Option TestCase) (rest : List String) : Option TestCase :=
  match cur with
  | none => none
  | some c =>
    match c.deep_copy with
    | some _ => some c
    | none =>
      match lookDeep (rest.take 4) with
      | some d => some ⟨c.name, c.multicast, some d, c.times⟩
      | none => some c

/-- The `while i < len(lines)` loop of `analyze_performance_fixed.py`. -/
def fixedLoop : List String → Option TestCase → List TestCase → Option (List TestCase)
  | [], _, acc => some acc
  | l :: rest, cur, acc =>
    match fixedStep (strip l) cur acc with
    | none => none
    | some (cur1, acc1) => fixedLoop rest (lookaheadFix cur1 rest) acc1

/-- `parse_performance_data` of `analyze_performance_fixed.py`. -/
def parse_fixed (ls : List String) : Option (List TestCase) :=
  fixedLoop ls none []

/-! ## `analyze_performance_manual.py`: hard-coded line-range parser -/

/-- `for i in range(i0, i0+n): if i < len(lines) and ...` of
`analyze_performance_manual.py`: collect times from the lines at indices
`i0, …, i0+n-1` (unstripped, substring-tested), raising on a captured but
invalid float. -/
def rangeGo (ls : List String) : Nat → Nat → Option (List ℚ)
  | _, 0 => some []
  | i, n + 1 =>
    match (ls.drop i).head? with
    | none => rangeGo ls (i + 1) n
    | some l =>
      match trialOfLine l with
      | none => none
      | some none => rangeGo ls (i + 1) n
      | some (some q) => (rangeGo ls (i + 1) n).map (q :: ·)

/-- `parse_performance_data` of `analyze_performance_manual.py`: the five
hard-coded sections at line ranges 4-13, 18-27, 32-41, 46-55, 60-69. -/
def parse_manual (ls : List String) : Option (List TestCase) :=
  (rangeGo ls 4 10).bind fun t1 =>
  (rangeGo ls 18 10).bind fun t2 =>
  (rangeGo ls 32 10).bind fun t3 =>
  (rangeGo ls 46 10).bind fun t4 =>
  (rangeGo ls 60 10).map fun t5 =>
    [⟨"TMA No Swizzling", false, some "1X", t1⟩,
     ⟨"TMA Multicast", true, some "2X", t2⟩,
     ⟨"TMA Multicast", true, some "4X", t3⟩,
     ⟨"TMA No Multicast", false, some "2X", t4⟩,
     ⟨"TMA No Multicast", false, some "4X", t5⟩]

/-! ## Statistics (`calculate_statistics`, identical in all three scripts) -/

/-- The statistics record returned by `calculate_statistics`.  `numpy.std`
returns the non-negative square root of the population variance; the field
`std2` holds that variance exactly, so the script's `std` is
`Real.sqrt std2`. -/
structure Stats where
  mean : ℚ
  std2 : ℚ
  min : ℚ
  max : ℚ
  count : Nat
deriving DecidableEq, Repr

/-- `numpy.mean`. -/
def npMean (l : List ℚ) : ℚ := l.sum / l.length

/-- The squared deviations from the mean, as `numpy.std` forms them. -/
def sqDevs (l : List ℚ) : List ℚ := l.map (fun x => (x - npMean l) ^ 2)

/-- The square of `numpy.std`: the mean of the squared deviations. -/
def npStd2 (l : List ℚ) : ℚ := npMean (sqDevs l)

/-- `numpy.min` over a non-empty array. -/
def listMin : List ℚ → ℚ
  | [] => 0
  | x :: xs => xs.foldl min x

/-- `numpy.max` over a non-empty array. -/
def listMax : List ℚ → ℚ
  | [] => 0
  | x :: xs => xs.foldl max x

/-- `calculate_statistics` (lines 68-77 of
`analyze_performance_correct.py` and its copies).  `numpy.min`/`numpy.max`
raise on an empty array, so the empty case is a failure (`none`). -/
def calculate_statistics (l : List ℚ) : Option Stats :=
  if l.isEmpty then none
  else some ⟨npMean l, npStd2 l, listMin l, listMax l, l.length⟩

/-- Modelled from the spec's words: the population variance, "sum of
squared deviations from the mean divided by N"; its square root is the
spec's population standard deviation. -/
def populationVariance_spec (l : List ℚ) : ℚ :=
  (l.map (fun x => (x - npMean l) ^ 2)).sum / (l.length : ℚ)

/-- Modelled from the spec's words: the sample variance, dividing by
`N - 1`, which the spec says must NOT be used. -/
def sampleVariance_spec (l : List ℚ) : ℚ :=
  (l.map (fun x => (x - npMean l) ^ 2)).sum / ((l.length : ℚ) - 1)

/-! ## Report printing and chart filtering -/

/-- The sort key `(x['name'], x['deep_copy'])` used by
`analyze_performance_correct.py`; in that script `deep_copy` is always a
string, so the `Option` default never matters on its outputs. -/
def keyLe (a b : TestCase) : Bool :=
  match compare a.name b.name with
  | .lt => true
  | .gt => false
  | .eq =>
    match compare (a.deep_copy.getD "") (b.deep_copy.getD "") with
    | .gt => false
    | _ => true

/-- `test_cases.sort(key=lambda x: (x['name'], x['deep_copy']))`. -/
def sortCases (l : List TestCase) : List TestCase := l.mergeSort keyLe

/-- The cases actually printed by `print_summary` in
`analyze_performance_correct.py`: sorted, then only those with a
non-empty `times`. -/
def printedCases_correct (l : List TestCase) : List TestCase :=
  (sortCases l).filter (fun c => !c.times.isEmpty)

/-- The cases printed by `print_summary` in
`analyze_performance_fixed.py` (no sort, `if case['times']`). -/
def printedCases_fixed (l : List TestCase) : List TestCase :=
  l.filter (fun c => !c.times.isEmpty)

/-- The cases printed by `print_summary` in
`analyze_performance_manual.py` (no sort, `if case['times']`). -/
def printedCases_manual (l : List TestCase) : List TestCase :=
  l.filter (fun c => !c.times.isEmpty)

/-- The cases plotted as bars by `create_plot` in
`analyze_performance_correct.py`: sorted, then only non-empty `times`. -/
def plottedCases_correct (l : List TestCase) : List TestCase :=
  (sortCases l).filter (fun c => !c.times.isEmpty)

/-- The cases plotted as bars by `create_plot` in
`analyze_performance_manual.py` (line 128): non-empty `times` AND the
hard-coded exclusion of `TMA No Multicast`. -/
def plottedCases_manual (l : List TestCase) : List TestCase :=
  l.filter (fun c => !c.times.isEmpty && c.name != "TMA No Multicast")

/-- The grouping key `f"{case['name']} ({case['deep_copy']})"` of
`create_plot` in `analyze_performance_fixed.py`; Python renders `None` as
the string `None`. -/
def caseKeyStr (c : TestCase) : String :=
  c.name ++ " (" ++ (match c.deep_copy with | some d => d | none => "None") ++ ")"

/-- Keys in first-occurrence order, as a Python `defaultdict` built by
insertion iterates. -/
def dedupKeys : List String → List String
  | [] => []
  | k :: rest => k :: (dedupKeys rest).filter (fun x => x ≠ k)

/-- Concatenation of a list of time lists. -/
def concatAll : List (List ℚ) → List ℚ
  | [] => []
  | x :: xs => x ++ concatAll xs

/-- The grouped `all_times` of `create_plot` in
`analyze_performance_fixed.py` (lines 86-110): for each key in
first-occurrence order, the concatenation of the `times` of every case
with that key. -/
def groupedAllTimes (cases : List TestCase) : List (String × List ℚ) :=
  (dedupKeys (cases.map caseKeyStr)).map
    (fun k => (k, concatAll ((cases.filter (fun c => caseKeyStr c = k)).map (fun c => c.times))))

/-- The bars rendered by `create_plot` in `analyze_performance_fixed.py`:
grouped keys whose combined `all_times` is non-empty. -/
def plottedBars_fixed (cases : List TestCase) : List (String × List ℚ) :=
  (groupedAllTimes cases).filter (fun b => !b.2.isEmpty)

/-- A line that "matches the `Trial N ... Completed in <float>ms` pattern
with a valid numeric token" in the sense of claims C1/C3, made precise as
the decidable conditions under which every branch test of both
content-based parsers classifies the line as (only) a trial line: it has
no surrounding whitespace, starts with `Trial`, contains `Completed in `
followed by a regex-captured token that parses as a float, and contains no
section header, no `Copy with` occurrence, no depth marker, and does not
start with `Success`. -/
def isGoodTrial (l : String) : Bool :=
  decide (strip l = l) &&
  startsWithL "Trial".data l.data &&
  containsSub "Completed in".data l.data &&
  !(containsSub hdr1.data l.data) &&
  !(containsSub hdr2.data l.data) &&
  !(containsSub hdr3.data l.data) &&
  !(containsSub "Deep copy 2X".data l.data) &&
  !(containsSub "Deep copy 4X".data l.data) &&
  !(startsWithL "Success".data l.data) &&
  decide (findSub "Copy with".data l.data = none) &&
  (match findCompleted l.data with
   | some tok => (pyFloat tok).isSome
   | none => false)

/-! ## Concrete inputs used by the claims -/

/-- The end-to-end example input of the spec (claim C4). -/
def c4Lines : List String :=
  [hdr1, "Trial 1: Completed in 0.512ms", "Trial 2: Completed in 0.498ms", "Success"]

/-- A multicast section whose depth marker sits between the header and the
trial line. -/
def markerLines : List String :=
  [hdr2, "Deep copy 2X", "Trial 1: Completed in 0.5ms", "Success"]

/-- A multicast section with no depth marker anywhere. -/
def noMarkerLines : List String :=
  [hdr2, "Trial 1: Completed in 1ms", "Success"]

/-- Two baseline sections sharing the identity (`TMA No Swizzling`, `1X`). -/
def dupLines : List String :=
  [hdr1, "Trial 1: Completed in 1ms", "Success",
   hdr1, "Trial 1: Completed in 2ms", "Success"]

/-- A section whose trial line carries the token `1.2.3`: the regex
captures it but Python `float` raises `ValueError`. -/
def crashLines : List String :=
  [hdr1, "Trial 1: Completed in 1.2.3ms", "Success"]

/-- Input whose line 4 makes `float` raise inside the first hard-coded
range of `analyze_performance_manual.py`. -/
def manualCrashLines : List String :=
  ["", "", "", "", "Trial 1: Completed in 1.2.3ms"]

end Perf

namespace Perf

/-! ## Basic lemmas -/

theorem containsSub_of_startsWith {pat s : List Char}
    (h : startsWithL pat s = true) : containsSub pat s = true := by
  cases s with
  | nil => simpa [containsSub] using h
  | cons c cs => simp [containsSub, h]

theorem foldl_min_le_init (xs : List ℚ) : ∀ a : ℚ, xs.foldl min a ≤ a := by
  induction xs with
  | nil => intro a; simp
  | cons x xs ih =>
    intro a
    calc (x :: xs).foldl min a = xs.foldl min (min a x) := rfl
    _ ≤ min a x := ih (min a x)
    _ ≤ a := min_le_left _ _

theorem foldl_min_le_mem (xs : List ℚ) :
    ∀ a y, y ∈ xs → xs.foldl min a ≤ y := by
  induction xs with
  | nil => intro a y hy; cases hy
  | cons x xs ih =>
    intro a y hy
    rcases List.mem_cons.mp hy with h | h
    · subst h
      calc (y :: xs).foldl min a = xs.foldl min (min a y) := rfl
      _ ≤ min a y := foldl_min_le_init xs _
      _ ≤ y := min_le_right _ _
    · exact ih (min a x) y h

theorem listMin_le {l : List ℚ} {x : ℚ} (hx : x ∈ l) : listMin l ≤ x := by
  cases l with
  | nil => cases hx
  | cons a as =>
    rcases List.mem_cons.mp hx with h | h
    · subst h; exact foldl_min_le_init as x
    · exact foldl_min_le_mem as a x h

theorem init_le_foldl_max (xs : List ℚ) : ∀ a : ℚ, a ≤ xs.foldl max a := by
  induction xs with
  | nil => intro a; simp
  | cons x xs ih =>
    intro a
    calc a ≤ max a x := le_max_left _ _
    _ ≤ xs.foldl max (max a x) := ih (max a x)
    _ = (x :: xs).foldl max a := rfl

theorem mem_le_foldl_max (xs : List ℚ) :
    ∀ a y, y ∈ xs → y ≤ xs.foldl max a := by
  induction xs with
  | nil => intro a y hy; cases hy
  | cons x xs ih =>
    intro a y hy
    rcases List.mem_cons.mp hy with h | h
    · subst h
      calc y ≤ max a y := le_max_right _ _
      _ ≤ xs.foldl max (max a y) := init_le_foldl_max xs _
      _ = (y :: xs).foldl max a := rfl
    · exact ih (max a x) y h

theorem le_listMax {l : List ℚ} {x : ℚ} (hx : x ∈ l) : x ≤ listMax l := by
  cases l with
  | nil => cases hx
  | cons a as =>
    rcases List.mem_cons.mp hx with h | h
    · subst h; exact init_le_foldl_max as x
    · exact mem_le_foldl_max as a x h

theorem mul_le_listSum (l : List ℚ) (a : ℚ) (h : ∀ x ∈ l, a ≤ x) :
    (l.length : ℚ) * a ≤ l.sum := by
  induction l with
  | nil => simp
  | cons x xs ih =>
    have hx : a ≤ x := h x (List.mem_cons_self x xs)
    have hs := ih (fun y hy => h y (List.mem_cons_of_mem x hy))
    simp only [List.length_cons, List.sum_cons]
    push_cast
    linarith

theorem listSum_le_mul (l : List ℚ) (a : ℚ) (h : ∀ x ∈ l, x ≤ a) :
    l.sum ≤ (l.length : ℚ) * a := by
  induction l with
  | nil => simp
  | cons x xs ih =>
    have hx : x ≤ a := h x (List.mem_cons_self x xs)
    have hs := ih (fun y hy => h y (List.mem_cons_of_mem x hy))
    simp only [List.length_cons, List.sum_cons]
    push_cast
    linarith

theorem listSum_const (l : List ℚ) (c : ℚ) (h : ∀ x ∈ l, x = c) :
    l.sum = (l.length : ℚ) * c := by
  induction l with
  | nil => simp
  | cons x xs ih =>
    have hx : x = c := h x (List.mem_cons_self x xs)
    have hs := ih (fun y hy => h y (List.mem_cons_of_mem x hy))
    simp only [List.length_cons, List.sum_cons, hx, hs]
    push_cast
    ring

theorem length_cast_pos {l : List ℚ} (h : l ≠ []) : (0 : ℚ) < (l.length : ℚ) := by
  have := List.length_pos.mpr h
  exact_mod_cast this

theorem npMean_const {l : List ℚ} {c : ℚ} (h : l ≠ []) (hc : ∀ x ∈ l, x = c) :
    npMean l = c := by
  have hlen : ((l.length : ℚ)) ≠ 0 := ne_of_gt (length_cast_pos h)
  rw [npMean, listSum_const l c hc]
  exact mul_div_cancel_left₀ c hlen

theorem npStd2_const {l : List ℚ} {c : ℚ} (h : l ≠ []) (hc : ∀ x ∈ l, x = c) :
    npStd2 l = 0 := by
  have hmean := npMean_const h hc
  have hz : ∀ y ∈ sqDevs l, y = 0 := by
    intro y hy
    rcases List.mem_map.mp hy with ⟨x, hx, rfl⟩
    rw [hc x hx, hmean, sub_self]
    ring
  rw [npStd2, npMean, listSum_const (sqDevs l) 0 hz, mul_zero, zero_div]

/-- Claim C5: for every non-empty list of times, the `std` returned by
`calculate_statistics` is the population standard deviation: its square is
the sum of squared deviations from the mean divided by `N` (not `N - 1`).
Stated through the exact square `std2`, with `numpy`'s `std` being
`Real.sqrt std2`. -/
theorem spec_C5_thm (l : List ℚ) (h : l ≠ []) :
    ∃ s, calculate_statistics l = some s ∧
      s.std2 = populationVariance_spec l ∧
      Real.sqrt (s.std2 : ℝ) = Real.sqrt ((populationVariance_spec l : ℚ) : ℝ) := by
  have hne : l.isEmpty = false := by
    cases l with
    | nil => exact absurd rfl h
    | cons a as => rfl
  refine ⟨⟨npMean l, npStd2 l, listMin l, listMax l, l.length⟩, ?_, ?_, ?_⟩
  · rw [calculate_statistics, hne]
    simp
  · show npStd2 l = populationVariance_spec l
    rw [npStd2, npMean, populationVariance_spec, sqDevs, List.length_map]
  · show Real.sqrt ((npStd2 l : ℚ) : ℝ) = _
    rw [npStd2, npMean, populationVariance_spec, sqDevs, List.length_map]

/-- Witness for C5 at `[1, 3]`: the code's variance is `1` (divide by
`N = 2`), while the sample variance (divide by `N - 1`) would be `2`. -/
theorem spec_C5_witness :
    (∃ s, calculate_statistics [(1 : ℚ), 3] = some s ∧
      s.std2 = populationVariance_spec [(1 : ℚ), 3] ∧
      Real.sqrt (s.std2 : ℝ) = Real.sqrt ((populationVariance_spec [(1 : ℚ), 3] : ℚ) : ℝ)) ∧
    populationVariance_spec [(1 : ℚ), 3] = 1 ∧
    sampleVariance_spec [(1 : ℚ), 3] = 2 ∧
    (1 : ℚ) ≠ 2 := by
  refine ⟨spec_C5_thm [(1 : ℚ), 3] (by decide), ?_, ?_, by norm_num⟩
  · norm_num [populationVariance_spec, npMean]
  · norm_num [sampleVariance_spec, npMean]

/-- Claim C6: for every non-empty list, the statistics record satisfies
`min ≤ mean ≤ max` and `std ≥ 0`, and for a constant list `std = 0`
(`std` being `Real.sqrt std2`). -/
theorem spec_C6_thm (l : List ℚ) (h : l ≠ []) :
    ∃ s, calculate_statistics l = some s ∧
      s.min ≤ s.mean ∧ s.mean ≤ s.max ∧
      0 ≤ Real.sqrt (s.std2 : ℝ) ∧
      ∀ c : ℚ, (∀ x ∈ l, x = c) → Real.sqrt (s.std2 : ℝ) = 0 := by
  have hne : l.isEmpty = false := by
    cases l with
    | nil => exact absurd rfl h
    | cons a as => rfl
  have hpos := length_cast_pos h
  refine ⟨⟨npMean l, npStd2 l, listMin l, listMax l, l.length⟩, ?_, ?_, ?_, ?_, ?_⟩
  · rw [calculate_statistics, hne]
    simp
  · show listMin l ≤ npMean l
    rw [npMean, le_div_iff₀ hpos, mul_comm]
    exact mul_le_listSum l (listMin l) (fun x hx => listMin_le hx)
  · show npMean l ≤ listMax l
    rw [npMean, div_le_iff₀ hpos, mul_comm]
    exact listSum_le_mul l (listMax l) (fun x hx => le_listMax hx)
  · exact Real.sqrt_nonneg _
  · intro c hc
    show Real.sqrt ((npStd2 l : ℚ) : ℝ) = 0
    rw [npStd2_const h hc]
    simp

/-- Witness for C6 at the constant list `[2, 2]`. -/
theorem spec_C6_witness :
    ∃ s, calculate_statistics [(2 : ℚ), 2] = some s ∧
      s.min ≤ s.mean ∧ s.mean ≤ s.max ∧
      0 ≤ Real.sqrt (s.std2 : ℝ) ∧
      ∀ c : ℚ, (∀ x ∈ [(2 : ℚ), 2], x = c) → Real.sqrt (s.std2 : ℝ) = 0 :=
  spec_C6_thm [(2 : ℚ), 2] (by decide)

set_option maxRecDepth 20000 in
/-- Claim C4: on the spec's end-to-end example input, both the regex
parser and the line-scanning parser yield exactly the one expected
TestCase (`0.512 = 64/125`, `0.498 = 249/500`), and the statistics give
mean `0.505 = 101/200` exactly and standard deviation `0.007 = 7/1000`
exactly, hence within the claimed `0.001` tolerance. -/
theorem spec_C4_thm :
    parse_correct c4Lines =
      some [⟨"TMA No Swizzling", false, some "1X", [64/125, 249/500]⟩] ∧
    parse_fixed c4Lines =
      some [⟨"TMA No Swizzling", false, some "1X", [64/125, 249/500]⟩] ∧
    ∃ s, calculate_statistics [(64 : ℚ)/125, 249/500] = some s ∧
      s.mean = 101/200 ∧ |s.mean - 101/200| ≤ 1/1000 ∧
      Real.sqrt (s.std2 : ℝ) = 7/1000 ∧
      |Real.sqrt (s.std2 : ℝ) - 7/1000| ≤ 1/1000 := by
  have hsq : Real.sqrt (((49 : ℚ)/1000000 : ℚ) : ℝ) = 7/1000 := by
    have h1 : (((49 : ℚ)/1000000 : ℚ) : ℝ) = (7/1000 : ℝ) ^ 2 := by norm_num
    rw [h1, Real.sqrt_sq (by norm_num)]
  refine ⟨by with_unfolding_all decide, by with_unfolding_all decide,
    ⟨101/200, 49/1000000, 249/500, 64/125, 2⟩, ?_, rfl, by norm_num, hsq, ?_⟩
  · norm_num [calculate_statistics, npMean, npStd2, sqDevs, listMin, listMax,
      Stats.mk.injEq, min_def, max_def]
  · rw [hsq]
    norm_num

set_option maxRecDepth 20000 in
/-- Counterexample to claim C1 as stated: on the well-formed multicast
section `markerLines` (header, depth marker, one valid trial line,
`Success`), the regex variant of `parse_performance_data` yields NO
TestCase at all (the body that contains `Deep copy 2X` takes the marker
branch and its trial lines are never scanned), while the line-scanning
variant yields the expected case with one time. -/
theorem spec_C1_cex :
    parse_correct markerLines = some [] ∧
    parse_fixed markerLines = some [⟨"TMA Multicast", true, some "2X", [1/2]⟩] := by
  constructor
  · with_unfolding_all decide
  · with_unfolding_all decide

set_option maxRecDepth 20000 in
/-- Counterexample to claim C2 as stated: two sections with identical
identity (`TMA No Swizzling`, depth `1X`) are parsed by
`analyze_performance_correct.py` into TWO separate TestCases, both of
which are also reported separately by its `print_summary`; no single
merged TestCase is produced before statistics are computed. -/
theorem spec_C2_cex :
    parse_correct dupLines =
      some [⟨"TMA No Swizzling", false, some "1X", [1]⟩,
            ⟨"TMA No Swizzling", false, some "1X", [2]⟩] ∧
    printedCases_correct
        [⟨"TMA No Swizzling", false, some "1X", [1]⟩,
         ⟨"TMA No Swizzling", false, some "1X", [2]⟩] =
      [⟨"TMA No Swizzling", false, some "1X", [1]⟩,
       ⟨"TMA No Swizzling", false, some "1X", [2]⟩] := by
  constructor
  · with_unfolding_all decide
  · with_unfolding_all decide

set_option maxRecDepth 20000 in
/-- Counterexample to claim C3 as stated: on a multicast section with no
depth marker, the line-scanning variant (`analyze_performance_fixed.py`)
leaves `deep_copy` as Python `None`, not the sentinel `"Unknown"`. -/
theorem spec_C3_cex :
    parse_fixed noMarkerLines = some [⟨"TMA Multicast", true, none, [1]⟩] := by
  with_unfolding_all decide

set_option maxRecDepth 20000 in
/-- Counterexample to claim C7 as stated: the line
`Trial 1: Completed in 1.2.3ms` contains `Trial` and `Completed in` and
its token `1.2.3` matches the regex `[\d.]+` but is not a valid float, so
`float` raises an uncaught `ValueError` and the whole run aborts (modelled
as `none`) in both content-based variants — no ParseError is recorded and
the remaining lines are never processed. -/
theorem spec_C7_cex :
    parse_correct crashLines = none ∧ parse_fixed crashLines = none := by
  constructor
  · with_unfolding_all decide
  · with_unfolding_all decide

set_option maxRecDepth 20000 in
/-- Counterexample to claim C10 as stated: an input whose line 4 carries
the regex-matching but unparseable token `1.2.3` makes
`analyze_performance_manual.py` raise inside its first hard-coded range,
so it does not return a list of 5 TestCases for every input. -/
theorem spec_C10_cex : parse_manual manualCrashLines = none := by
  with_unfolding_all decide

/-- Claim C10, amended: whenever the fixed-line-range parser returns at
all (no regex-captured token in the scanned ranges fails float parsing),
its result is exactly the 5 hard-coded TestCases, in order, with times
drawn only from the line-index ranges 4-13, 18-27, 32-41, 46-55, 60-69
(each possibly empty). -/
theorem spec_C10_thm (ls : List String) (r : List TestCase)
    (h : parse_manual ls = some r) :
    ∃ t1 t2 t3 t4 t5,
      rangeGo ls 4 10 = some t1 ∧ rangeGo ls 18 10 = some t2 ∧
      rangeGo ls 32 10 = some t3 ∧ rangeGo ls 46 10 = some t4 ∧
      rangeGo ls 60 10 = some t5 ∧
      r = [⟨"TMA No Swizzling", false, some "1X", t1⟩,
           ⟨"TMA Multicast", true, some "2X", t2⟩,
           ⟨"TMA Multicast", true, some "4X", t3⟩,
           ⟨"TMA No Multicast", false, some "2X", t4⟩,
           ⟨"TMA No Multicast", false, some "4X", t5⟩] ∧
      r.length = 5 := by
  rw [parse_manual] at h
  cases h1 : rangeGo ls 4 10 with
  | none => rw [h1] at h; cases h
  | some t1 =>
    rw [h1] at h
    cases h2 : rangeGo ls 18 10 with
    | none => rw [h2] at h; cases h
    | some t2 =>
      rw [h2] at h
      cases h3 : rangeGo ls 32 10 with
      | none => rw [h3] at h; cases h
      | some t3 =>
        rw [h3] at h
        cases h4 : rangeGo ls 46 10 with
        | none => rw [h4] at h; cases h
        | some t4 =>
          rw [h4] at h
          cases h5 : rangeGo ls 60 10 with
          | none => rw [h5] at h; cases h
          | some t5 =>
            rw [h5] at h
            simp only [Option.some_bind, Option.map_some', Option.some.injEq] at h
            exact ⟨t1, t2, t3, t4, t5, rfl, rfl, rfl, rfl, rfl, h.symm, by
              rw [← h]; rfl⟩

/-- Witness for the amended C10 at the empty input: the parser returns
and its 5 TestCases all have empty times. -/
theorem spec_C10_witness :
    ∃ t1 t2 t3 t4 t5,
      rangeGo ([] : List String) 4 10 = some t1 ∧
      rangeGo ([] : List String) 18 10 = some t2 ∧
      rangeGo ([] : List String) 32 10 = some t3 ∧
      rangeGo ([] : List String) 46 10 = some t4 ∧
      rangeGo ([] : List String) 60 10 = some t5 ∧
      ([⟨"TMA No Swizzling", false, some "1X", []⟩,
        ⟨"TMA Multicast", true, some "2X", []⟩,
        ⟨"TMA Multicast", true, some "4X", []⟩,
        ⟨"TMA No Multicast", false, some "2X", []⟩,
        ⟨"TMA No Multicast", false, some "4X", []⟩] : List TestCase) =
        [⟨"TMA No Swizzling", false, some "1X", t1⟩,
         ⟨"TMA Multicast", true, some "2X", t2⟩,
         ⟨"TMA Multicast", true, some "4X", t3⟩,
         ⟨"TMA No Multicast", false, some "2X", t4⟩,
         ⟨"TMA No Multicast", false, some "4X", t5⟩] ∧
      ([⟨"TMA No Swizzling", false, some "1X", []⟩,
        ⟨"TMA Multicast", true, some "2X", []⟩,
        ⟨"TMA Multicast", true, some "4X", []⟩,
        ⟨"TMA No Multicast", false, some "2X", []⟩,
        ⟨"TMA No Multicast", false, some "4X", []⟩] : List TestCase).length = 5 :=
  spec_C10_thm [] _ (by with_unfolding_all decide)

/-- Claim C8: in every script variant, every TestCase (or grouped bar)
that reaches the printed summary or the rendered chart has at least one
trial: the `if case['times']` / `if all_times` guards drop empty cases
before reporting and plotting. -/
theorem spec_C8_thm (l : List TestCase) :
    (∀ c ∈ printedCases_correct l, c.times ≠ []) ∧
    (∀ c ∈ printedCases_fixed l, c.times ≠ []) ∧
    (∀ c ∈ printedCases_manual l, c.times ≠ []) ∧
    (∀ c ∈ plottedCases_correct l, c.times ≠ []) ∧
    (∀ c ∈ plottedCases_manual l, c.times ≠ []) ∧
    (∀ b ∈ plottedBars_fixed l, b.2 ≠ []) := by
  refine ⟨?_, ?_, ?_, ?_, ?_, ?_⟩ <;> intro c hc
  · rcases List.mem_filter.mp hc with ⟨-, hp⟩
    simpa using hp
  · rcases List.mem_filter.mp hc with ⟨-, hp⟩
    simpa using hp
  · rcases List.mem_filter.mp hc with ⟨-, hp⟩
    simpa using hp
  · rcases List.mem_filter.mp hc with ⟨-, hp⟩
    simpa using hp
  · rcases List.mem_filter.mp hc with ⟨-, hp⟩
    simp only [Bool.and_eq_true] at hp
    rcases hp with ⟨hp1, -⟩
    simpa using hp1
  · rcases List.mem_filter.mp hc with ⟨-, hp⟩
    simpa using hp

/-- Witness for C8: a concrete case that survives each report filter has
non-empty times. -/
theorem spec_C8_witness :
    (⟨"TMA Multicast", true, some "2X", [1]⟩ : TestCase).times ≠ [] :=
  (spec_C8_thm [⟨"TMA Multicast", true, some "2X", [1]⟩]).1
    ⟨"TMA Multicast", true, some "2X", [1]⟩ (by with_unfolding_all decide)

/-- Claim C9: in `analyze_performance_manual.py`, whose `create_plot`
excludes `TMA No Multicast`, a list holding one non-empty
`TMA No Multicast` case and one non-empty `TMA Multicast` case yields
exactly one plotted bar while `print_summary` still reports both. -/
theorem spec_C9_thm (c1 c2 : TestCase) (l : List TestCase)
    (h1 : c1.name = "TMA No Multicast") (h2 : c2.name = "TMA Multicast")
    (ht1 : c1.times ≠ []) (ht2 : c2.times ≠ [])
    (hl : l.Perm [c1, c2]) :
    (plottedCases_manual l).length = 1 ∧ (printedCases_manual l).length = 2 := by
  have he1 : c1.times.isEmpty = false := by
    cases h : c1.times with
    | nil => exact absurd h ht1
    | cons a as => rfl
  have he2 : c2.times.isEmpty = false := by
    cases h : c2.times with
    | nil => exact absurd h ht2
    | cons a as => rfl
  constructor
  · rw [plottedCases_manual,
      (List.Perm.filter (fun c => !c.times.isEmpty && c.name != "TMA No Multicast") hl).length_eq]
    simp [List.filter, h1, h2, he1, he2]
  · rw [printedCases_manual,
      (List.Perm.filter (fun c => !c.times.isEmpty) hl).length_eq]
    simp [List.filter, he1, he2]

/-- Witness for C9 at two concrete cases. -/
theorem spec_C9_witness :
    (plottedCases_manual
        [⟨"TMA No Multicast", false, some "2X", [1]⟩,
         ⟨"TMA Multicast", true, some "2X", [2]⟩]).length = 1 ∧
    (printedCases_manual
        [⟨"TMA No Multicast", false, some "2X", [1]⟩,
         ⟨"TMA Multicast", true, some "2X", [2]⟩]).length = 2 :=
  spec_C9_thm ⟨"TMA No Multicast", false, some "2X", [1]⟩
    ⟨"TMA Multicast", true, some "2X", [2]⟩ _
    rfl rfl (by with_unfolding_all decide) (by with_unfolding_all decide)
    (List.Perm.refl _)

/-- Claim C2, amended: the grouping step of `create_plot` in
`analyze_performance_fixed.py` concatenates the trial sequences of cases
sharing the `(name, deep_copy)` key before statistics are computed, so the
combined trial count is the sum of both counts; the regex variant keeps
such sections as separate TestCases throughout. -/
theorem spec_C2_thm (c1 c2 : TestCase) (hk : caseKeyStr c1 = caseKeyStr c2) :
    groupedAllTimes [c1, c2] = [(caseKeyStr c1, c1.times ++ c2.times)] ∧
    (c1.times ++ c2.times).length = c1.times.length + c2.times.length := by
  constructor
  · simp [groupedAllTimes, dedupKeys, hk, concatAll, List.filter]
  · simp

/-- Witness for the amended C2: two concrete same-identity cases produce
one grouped entry whose trial count is the sum `1 + 2 = 3`. -/
theorem spec_C2_witness :
    groupedAllTimes
        [⟨"TMA Multicast", true, some "2X", [1]⟩,
         ⟨"TMA Multicast", true, some "2X", [2, 3]⟩] =
      [(caseKeyStr ⟨"TMA Multicast", true, some "2X", [1]⟩,
        ([1] : List ℚ) ++ [2, 3])] ∧
    (([1] : List ℚ) ++ [2, 3]).length = ([1] : List ℚ).length + ([2, 3] : List ℚ).length :=
  spec_C2_thm ⟨"TMA Multicast", true, some "2X", [1]⟩
    ⟨"TMA Multicast", true, some "2X", [2, 3]⟩ rfl

/-! ## Machinery for well-formed sections (claims C1, C3, C7) -/

theorem goodTrial_parts {l : String} (h : isGoodTrial l = true) :
    strip l = l ∧
    startsWithL "Trial".data l.data = true ∧
    containsSub "Completed in".data l.data = true ∧
    containsSub hdr1.data l.data = false ∧
    containsSub hdr2.data l.data = false ∧
    containsSub hdr3.data l.data = false ∧
    containsSub "Deep copy 2X".data l.data = false ∧
    containsSub "Deep copy 4X".data l.data = false ∧
    startsWithL "Success".data l.data = false ∧
    findSub "Copy with".data l.data = none ∧
    ∃ tok q, findCompleted l.data = some tok ∧ pyFloat tok = some q := by
  rw [isGoodTrial] at h
  simp only [Bool.and_eq_true, decide_eq_true_eq, Bool.not_eq_true'] at h
  obtain ⟨⟨⟨⟨⟨⟨⟨⟨⟨⟨h1, h2⟩, h3⟩, h4⟩, h5⟩, h6⟩, h7⟩, h8⟩, h9⟩, h10⟩, h11⟩ := h
  refine ⟨h1, h2, h3, h4, h5, h6, h7, h8, h9, h10, ?_⟩
  cases hfc : findCompleted l.data with
  | none => rw [hfc] at h11; cases h11
  | some tok =>
    rw [hfc] at h11
    obtain ⟨q, hq⟩ := Option.isSome_iff_exists.mp h11
    exact ⟨tok, q, rfl, hq⟩

theorem trialOfLine_good {l : String} (h : isGoodTrial l = true) :
    ∃ q, trialOfLine l = some (some q) := by
  obtain ⟨-, h2, h3, -, -, -, -, -, -, -, tok, q, hfc, hpf⟩ := goodTrial_parts h
  have h1 : containsSub "Trial".data l.data = true := containsSub_of_startsWith h2
  exact ⟨q, by simp [trialOfLine, h1, h3, hfc, hpf]⟩

theorem extractTimes_good (ts : List String)
    (hts : ∀ l ∈ ts, isGoodTrial l = true) :
    ∃ vs : List ℚ, extractTimes (ts ++ ["Success"]) = some vs ∧
      vs.length = ts.length := by
  induction ts with
  | nil =>
    refine ⟨[], ?_, rfl⟩
    with_unfolding_all decide
  | cons l ts ih =>
    obtain ⟨q, hq⟩ := trialOfLine_good (hts l (List.mem_cons_self l ts))
    obtain ⟨vs, hvs, hlen⟩ := ih (fun x hx => hts x (List.mem_cons_of_mem l hx))
    refine ⟨q :: vs, ?_, by simp [hlen]⟩
    show extractTimes (l :: (ts ++ ["Success"])) = some (q :: vs)
    rw [extractTimes, hq, hvs]
    rfl

theorem lookDeep_none (ls : List String)
    (h : ∀ l ∈ ls, containsSub "Deep copy 2X".data (strip l).data = false ∧
                   containsSub "Deep copy 4X".data (strip l).data = false) :
    lookDeep ls = none := by
  induction ls with
  | nil => rfl
  | cons l ls ih =>
    obtain ⟨h2, h4⟩ := h l (List.mem_cons_self l ls)
    rw [lookDeep, h2, h4]
    simp only [Bool.false_eq_true, if_false]
    exact ih (fun x hx => h x (List.mem_cons_of_mem l hx))

theorem lookaheadFix_id (c : TestCase) (rest : List String)
    (h : ∀ l ∈ rest, containsSub "Deep copy 2X".data (strip l).data = false ∧
                     containsSub "Deep copy 4X".data (strip l).data = false) :
    lookaheadFix (some c) rest = some c := by
  cases hd : c.deep_copy with
  | some d => simp [lookaheadFix, hd]
  | none =>
    have hl : lookDeep (rest.take 4) = none :=
      lookDeep_none _ (fun l hl => h l (List.mem_of_mem_take hl))
    simp [lookaheadFix, hd, hl]

theorem goodRest_noMarkers (ts : List String)
    (hts : ∀ l ∈ ts, isGoodTrial l = true) :
    ∀ l ∈ ts ++ ["Success"],
      containsSub "Deep copy 2X".data (strip l).data = false ∧
      containsSub "Deep copy 4X".data (strip l).data = false := by
  intro l hl
  rcases List.mem_append.mp hl with hin | hin
  · obtain ⟨h1, -, -, -, -, -, h7, h8, -⟩ := goodTrial_parts (hts l hin)
    rw [h1]
    exact ⟨h7, h8⟩
  · rcases List.mem_singleton.mp hin with rfl
    constructor
    · with_unfolding_all decide
    · with_unfolding_all decide

theorem fixedLoop_trials (ts : List String)
    (hts : ∀ l ∈ ts, isGoodTrial l = true) :
    ∀ (c : TestCase) (acc : List TestCase), (c.times = [] → ts ≠ []) →
    ∃ vs : List ℚ, vs.length = ts.length ∧
      fixedLoop (ts ++ ["Success"]) (some c) acc =
        some (acc ++ [⟨c.name, c.multicast, c.deep_copy, c.times ++ vs⟩]) := by
  induction ts with
  | nil =>
    intro c acc hne
    have hct : c.times ≠ [] := fun hc => (hne hc) rfl
    have hemp : c.times.isEmpty = false := by
      cases h : c.times with
      | nil => exact absurd h hct
      | cons a as => rfl
    refine ⟨[], rfl, ?_⟩
    show fixedLoop ["Success"] (some c) acc = _
    rw [fixedLoop]
    have hstep : fixedStep (strip "Success") (some c) acc = some (none, acc ++ [c]) := by
      have hs : strip "Success" = "Success" := by with_unfolding_all decide
      rw [hs, fixedStep]
      have c1 : containsSub hdr1.data "Success".data = false := by decide
      have c2 : containsSub hdr2.data "Success".data = false := by decide
      have c3 : containsSub hdr3.data "Success".data = false := by decide
      have c4 : startsWithL "Trial".data "Success".data = false := by decide
      have c5 : startsWithL "Success".data "Success".data = true := by decide
      rw [c1, c2, c3]
      simp only [Bool.false_eq_true, if_false]
      rw [c4, c5]
      simp [hemp]
    rw [hstep]
    show fixedLoop [] (lookaheadFix none ["Success"]) (acc ++ [c]) = _
    have : (⟨c.name, c.multicast, c.deep_copy, c.times ++ []⟩ : TestCase) = c := by
      cases c
      simp
    rw [this]
    rfl
  | cons l ts ih =>
    intro c acc hne
    obtain ⟨h1, h2, h3, h4, h5, h6, h7, h8, h9, h10, tok, q, hfc, hpf⟩ :=
      goodTrial_parts (hts l (List.mem_cons_self l ts))
    have hts' : ∀ x ∈ ts, isGoodTrial x = true :=
      fun x hx => hts x (List.mem_cons_of_mem l hx)
    obtain ⟨vs, hlen, hloop⟩ :=
      ih hts' ⟨c.name, c.multicast, c.deep_copy, c.times ++ [q]⟩ acc (by simp)
    refine ⟨q :: vs, by simp [hlen], ?_⟩
    show fixedLoop (l :: (ts ++ ["Success"])) (some c) acc = _
    rw [fixedLoop]
    have hstep : fixedStep (strip l) (some c) acc =
        some (some ⟨c.name, c.multicast, c.deep_copy, c.times ++ [q]⟩, acc) := by
      rw [h1, fixedStep, h4, h5, h6]
      simp only [Bool.false_eq_true, if_false]
      rw [h2, h3]
      simp only [Bool.and_self, if_true]
      simp only [hfc, hpf]
    rw [hstep]
    have hfix : lookaheadFix (some ⟨c.name, c.multicast, c.deep_copy, c.times ++ [q]⟩)
        (ts ++ ["Success"]) = some ⟨c.name, c.multicast, c.deep_copy, c.times ++ [q]⟩ :=
      lookaheadFix_id _ _ (goodRest_noMarkers ts hts')
    simp only [hfix, hloop]
    simp [List.append_assoc]

theorem fixedLoop_start (hdr : String) (c0 : TestCase)
    (hstep : fixedStep (strip hdr) none [] = some (some c0, []))
    (hc0 : c0.times = [])
    (ts : List String) (hts : ∀ l ∈ ts, isGoodTrial l = true) (hne : ts ≠ []) :
    ∃ vs : List ℚ, vs.length = ts.length ∧
      parse_fixed (hdr :: (ts ++ ["Success"])) =
        some [⟨c0.name, c0.multicast, c0.deep_copy, vs⟩] := by
  obtain ⟨vs, hlen, hloop⟩ := fixedLoop_trials ts hts c0 [] (fun _ => hne)
  have hfix : lookaheadFix (some c0) (ts ++ ["Success"]) = some c0 :=
    lookaheadFix_id _ _ (goodRest_noMarkers ts hts)
  refine ⟨vs, hlen, ?_⟩
  rw [parse_fixed, fixedLoop]
  simp only [hstep, hfix, hloop, hc0]
  simp

theorem fixedLoop_marker_start (hdr mk : String) (c0 c1 : TestCase)
    (hstep : fixedStep (strip hdr) none [] = some (some c0, []))
    (hmk1 : containsSub hdr1.data (strip mk).data = false)
    (hmk2 : containsSub hdr2.data (strip mk).data = false)
    (hmk3 : containsSub hdr3.data (strip mk).data = false)
    (hmk4 : startsWithL "Trial".data (strip mk).data = false)
    (hmk5 : startsWithL "Success".data (strip mk).data = false)
    (ts : List String) (hts : ∀ l ∈ ts, isGoodTrial l = true) (hne : ts ≠ [])
    (hc1 : lookaheadFix (some c0) (mk :: (ts ++ ["Success"])) = some c1)
    (hc1t : c1.times = [])
    (hc1d : c1.deep_copy ≠ none) :
    ∃ vs : List ℚ, vs.length = ts.length ∧
      parse_fixed (hdr :: mk :: (ts ++ ["Success"])) =
        some [⟨c1.name, c1.multicast, c1.deep_copy, vs⟩] := by
  obtain ⟨vs, hlen, hloop⟩ := fixedLoop_trials ts hts c1 [] (fun _ => hne)
  refine ⟨vs, hlen, ?_⟩
  rw [parse_fixed, fixedLoop]
  simp only [hstep, hc1]
  rw [fixedLoop]
  have hm : fixedStep (strip mk) (some c1) [] = some (some c1, []) := by
    rw [fixedStep, hmk1, hmk2, hmk3]
    simp only [Bool.false_eq_true, if_false]
    rw [hmk4, hmk5]
    simp
  simp only [hm]
  have hfix2 : lookaheadFix (some c1) (ts ++ ["Success"]) = some c1 := by
    cases hd : c1.deep_copy with
    | none => exact absurd hd hc1d
    | some d => simp [lookaheadFix, hd]
  simp only [hfix2, hloop, hc1t]
  simp

theorem splitGo_noCW (ls : List String)
    (h : ∀ l ∈ ls, findSub "Copy with".data l.data = none) :
    ∀ segs, splitGo ls segs = [.body (segs ++ ls)] := by
  induction ls with
  | nil => intro segs; simp [splitGo]
  | cons l ls ih =>
    intro segs
    rw [splitGo]
    simp only [h l (List.mem_cons_self l ls)]
    rw [ih (fun x hx => h x (List.mem_cons_of_mem l hx)) (segs ++ [l])]
    simp

theorem bodyHas_false (pat : String) (segs : List String)
    (h : ∀ l ∈ segs, containsSub pat.data l.data = false) :
    bodyHas pat segs = false := by
  rw [bodyHas]
  rw [List.any_eq_false]
  intro x hx
  rw [h x hx]
  simp

theorem bodyHas_true (pat : String) {segs : List String} {l : String}
    (hl : l ∈ segs) (h : containsSub pat.data l.data = true) :
    bodyHas pat segs = true := by
  rw [bodyHas, List.any_eq_true]
  exact ⟨l, hl, h⟩

theorem goodRest_noCW (ts : List String)
    (hts : ∀ l ∈ ts, isGoodTrial l = true) :
    ∀ l ∈ ts ++ ["Success"], findSub "Copy with".data l.data = none := by
  intro l hl
  rcases List.mem_append.mp hl with hin | hin
  · obtain ⟨-, -, -, -, -, -, -, -, -, h10, -⟩ := goodTrial_parts (hts l hin)
    exact h10
  · rcases List.mem_singleton.mp hin with rfl
    decide

theorem processPieces_section (hdr nm : String) (mult : Bool) (dep : String)
    (hcw : findSub "Copy with".data hdr.data = some 0)
    (hcls : classify (strip hdr) none = some (nm, mult, dep))
    (ts : List String) (hts : ∀ l ∈ ts, isGoodTrial l = true) (hne : ts ≠ []) :
    ∃ vs : List ℚ, vs.length = ts.length ∧
      parse_correct (hdr :: (ts ++ ["Success"])) = some [⟨nm, mult, some dep, vs⟩] := by
  obtain ⟨vs, hvs, hvlen⟩ := extractTimes_good ts hts
  refine ⟨vs, hvlen, ?_⟩
  rw [parse_correct, splitGo]
  simp only [hcw]
  rw [splitGo_noCW (ts ++ ["Success"]) (goodRest_noCW ts hts) []]
  simp only [List.take_zero, List.drop_zero, List.nil_append]
  -- first piece: the empty body before the header
  rw [processPieces]
  have hb0a : bodyHas "Deep copy 2X" [(⟨[]⟩ : String)] = false := by decide
  have hb0b : bodyHas "Deep copy 4X" [(⟨[]⟩ : String)] = false := by decide
  rw [hb0a, hb0b]
  simp only [Bool.false_eq_true, if_false]
  -- header piece
  rw [processPieces]
  -- main body piece
  rw [processPieces]
  have hb2 : bodyHas "Deep copy 2X" (ts ++ ["Success"]) = false := by
    refine bodyHas_false _ _ ?_
    intro l hl
    rcases List.mem_append.mp hl with hin | hin
    · obtain ⟨-, -, -, -, -, -, h7, -⟩ := goodTrial_parts (hts l hin)
      exact h7
    · rcases List.mem_singleton.mp hin with rfl
      decide
  have hb4 : bodyHas "Deep copy 4X" (ts ++ ["Success"]) = false := by
    refine bodyHas_false _ _ ?_
    intro l hl
    rcases List.mem_append.mp hl with hin | hin
    · obtain ⟨-, -, -, -, -, -, -, h8, -⟩ := goodTrial_parts (hts l hin)
      exact h8
    · rcases List.mem_singleton.mp hin with rfl
      decide
  have hbt : bodyHas "Trial" (ts ++ ["Success"]) = true := by
    cases ts with
    | nil => exact absurd rfl hne
    | cons l0 ts0 =>
      obtain ⟨-, h2, -⟩ := goodTrial_parts (hts l0 (List.mem_cons_self l0 ts0))
      exact bodyHas_true _ (by simp) (containsSub_of_startsWith h2)
  rw [hb2, hb4]
  simp only [Bool.false_eq_true, if_false]
  rw [hbt]
  simp only [if_true]
  have hvemp : vs.isEmpty = false := by
    cases hv : vs with
    | nil =>
      exfalso
      rw [hv] at hvlen
      cases ts with
      | nil => exact absurd rfl hne
      | cons a b => cases hvlen
    | cons a b => rfl
  simp only [hvs, hvemp, hcls]
  rw [processPieces]
  simp

theorem processPieces_marker (hdr mk : String)
    (hcw : findSub "Copy with".data hdr.data = some 0)
    (hmkcw : findSub "Copy with".data mk.data = none)
    (hmk : containsSub "Deep copy 2X".data mk.data = true ∨
      (containsSub "Deep copy 2X".data mk.data = false ∧
       containsSub "Deep copy 4X".data mk.data = true))
    (ts : List String) (hts : ∀ l ∈ ts, isGoodTrial l = true) :
    parse_correct (hdr :: mk :: (ts ++ ["Success"])) = some [] := by
  rw [parse_correct, splitGo]
  simp only [hcw]
  have hrest : ∀ l ∈ mk :: (ts ++ ["Success"]),
      findSub "Copy with".data l.data = none := by
    intro l hl
    rcases List.mem_cons.mp hl with rfl | hin
    · exact hmkcw
    · exact goodRest_noCW ts hts l hin
  rw [splitGo_noCW _ hrest []]
  simp only [List.take_zero, List.drop_zero, List.nil_append]
  rw [processPieces]
  have hb0a : bodyHas "Deep copy 2X" [(⟨[]⟩ : String)] = false := by decide
  have hb0b : bodyHas "Deep copy 4X" [(⟨[]⟩ : String)] = false := by decide
  rw [hb0a, hb0b]
  simp only [Bool.false_eq_true, if_false]
  rw [processPieces, processPieces]
  rcases hmk with hmk2 | ⟨hmk2, hmk4⟩
  · have hb2 : bodyHas "Deep copy 2X" (mk :: (ts ++ ["Success"])) = true :=
      bodyHas_true _ (List.mem_cons_self _ _) hmk2
    rw [hb2]
    simp only [if_true]
    rw [processPieces]
  · have hb2 : bodyHas "Deep copy 2X" (mk :: (ts ++ ["Success"])) = false := by
      refine bodyHas_false _ _ ?_
      intro l hl
      rcases List.mem_cons.mp hl with rfl | hin
      · exact hmk2
      · rcases List.mem_append.mp hin with hin2 | hin2
        · obtain ⟨-, -, -, -, -, -, h7, -⟩ := goodTrial_parts (hts l hin2)
          exact h7
        · rcases List.mem_singleton.mp hin2 with rfl
          decide
    have hb4 : bodyHas "Deep copy 4X" (mk :: (ts ++ ["Success"])) = true :=
      bodyHas_true _ (List.mem_cons_self _ _) hmk4
    rw [hb2]
    simp only [Bool.false_eq_true, if_false]
    rw [hb4]
    simp only [if_true]
    rw [processPieces]

theorem lookaheadFix_marker (c : TestCase) (hd : c.deep_copy = none)
    (rest : List String) :
    lookaheadFix (some c) ("Deep copy 2X" :: rest) =
      some ⟨c.name, c.multicast, some "2X", c.times⟩ := by
  have h1 : ∀ xs : List String, lookDeep ("Deep copy 2X" :: xs) = some "2X" := by
    intro xs
    rw [lookDeep]
    have hc : containsSub "Deep copy 2X".data (strip "Deep copy 2X").data = true := by
      with_unfolding_all decide
    rw [hc]
    simp
  rw [lookaheadFix, hd]
  simp only [List.take_succ_cons, h1]

theorem lookaheadFix_marker4 (c : TestCase) (hd : c.deep_copy = none)
    (rest : List String) :
    lookaheadFix (some c) ("Deep copy 4X" :: rest) =
      some ⟨c.name, c.multicast, some "4X", c.times⟩ := by
  have h1 : ∀ xs : List String, lookDeep ("Deep copy 4X" :: xs) = some "4X" := by
    intro xs
    rw [lookDeep]
    have hc2 : containsSub "Deep copy 2X".data (strip "Deep copy 4X").data = false := by
      with_unfolding_all decide
    have hc4 : containsSub "Deep copy 4X".data (strip "Deep copy 4X").data = true := by
      with_unfolding_all decide
    rw [hc2]
    simp only [Bool.false_eq_true, if_false]
    rw [hc4]
    simp
  rw [lookaheadFix, hd]
  simp only [List.take_succ_cons, h1]

set_option maxRecDepth 40000 in
/-- Claim C1, amended: for a well-formed section (recognized header,
optionally a depth-marker line `Deep copy 2X` or `Deep copy 4X`, then
`K ≥ 1` trial lines with valid numeric tokens, then `Success`), the
line-scanning parser (`analyze_performance_fixed.py`) always yields
exactly one TestCase with exactly `K` times; the regex parser
(`analyze_performance_correct.py`) does so only when the section has NO
depth-marker line — when either marker is present, its body takes the
marker branch and the section yields no TestCase at all. -/
theorem spec_C1_thm (hdr : String)
    (hh : hdr = hdr1 ∨ hdr = hdr2 ∨ hdr = hdr3)
    (mk : String) (hmk : mk = "Deep copy 2X" ∨ mk = "Deep copy 4X")
    (ts : List String) (hts : ∀ l ∈ ts, isGoodTrial l = true) (hne : ts ≠ []) :
    (∃ tc, parse_fixed (hdr :: (ts ++ ["Success"])) = some [tc] ∧
      tc.times.length = ts.length) ∧
    (∃ tc, parse_correct (hdr :: (ts ++ ["Success"])) = some [tc] ∧
      tc.times.length = ts.length) ∧
    (∃ tc, parse_fixed (hdr :: mk :: (ts ++ ["Success"])) = some [tc] ∧
      tc.times.length = ts.length) ∧
    parse_correct (hdr :: mk :: (ts ++ ["Success"])) = some [] := by
  have k1 : containsSub hdr1.data (strip "Deep copy 2X").data = false := by
    with_unfolding_all decide
  have k2 : containsSub hdr2.data (strip "Deep copy 2X").data = false := by
    with_unfolding_all decide
  have k3 : containsSub hdr3.data (strip "Deep copy 2X").data = false := by
    with_unfolding_all decide
  have k4 : startsWithL "Trial".data (strip "Deep copy 2X").data = false := by
    with_unfolding_all decide
  have k5 : startsWithL "Success".data (strip "Deep copy 2X").data = false := by
    with_unfolding_all decide
  have j1 : containsSub hdr1.data (strip "Deep copy 4X").data = false := by
    with_unfolding_all decide
  have j2 : containsSub hdr2.data (strip "Deep copy 4X").data = false := by
    with_unfolding_all decide
  have j3 : containsSub hdr3.data (strip "Deep copy 4X").data = false := by
    with_unfolding_all decide
  have j4 : startsWithL "Trial".data (strip "Deep copy 4X").data = false := by
    with_unfolding_all decide
  have j5 : startsWithL "Success".data (strip "Deep copy 4X").data = false := by
    with_unfolding_all decide
  rcases hh with rfl | rfl | rfl
  · refine ⟨?_, ?_, ?_, ?_⟩
    · obtain ⟨vs, hlen, hp⟩ := fixedLoop_start hdr1
        ⟨"TMA No Swizzling", false, some "1X", []⟩
        (by with_unfolding_all decide) rfl ts hts hne
      exact ⟨_, hp, hlen⟩
    · obtain ⟨vs, hlen, hp⟩ := processPieces_section hdr1 "TMA No Swizzling" false "1X"
        (by decide) (by with_unfolding_all decide) ts hts hne
      exact ⟨_, hp, hlen⟩
    · rcases hmk with rfl | rfl
      · obtain ⟨vs, hlen, hp⟩ := fixedLoop_marker_start hdr1 "Deep copy 2X"
          ⟨"TMA No Swizzling", false, some "1X", []⟩
          ⟨"TMA No Swizzling", false, some "1X", []⟩
          (by with_unfolding_all decide) k1 k2 k3 k4 k5 ts hts hne rfl rfl (by simp)
        exact ⟨_, hp, hlen⟩
      · obtain ⟨vs, hlen, hp⟩ := fixedLoop_marker_start hdr1 "Deep copy 4X"
          ⟨"TMA No Swizzling", false, some "1X", []⟩
          ⟨"TMA No Swizzling", false, some "1X", []⟩
          (by with_unfolding_all decide) j1 j2 j3 j4 j5 ts hts hne rfl rfl (by simp)
        exact ⟨_, hp, hlen⟩
    · rcases hmk with rfl | rfl
      · exact processPieces_marker hdr1 "Deep copy 2X" (by decide) (by decide)
          (Or.inl (by decide)) ts hts
      · exact processPieces_marker hdr1 "Deep copy 4X" (by decide) (by decide)
          (Or.inr ⟨by decide, by decide⟩) ts hts
  · refine ⟨?_, ?_, ?_, ?_⟩
    · obtain ⟨vs, hlen, hp⟩ := fixedLoop_start hdr2
        ⟨"TMA Multicast", true, none, []⟩
        (by with_unfolding_all decide) rfl ts hts hne
      exact ⟨_, hp, hlen⟩
    · obtain ⟨vs, hlen, hp⟩ := processPieces_section hdr2 "TMA Multicast" true "Unknown"
        (by decide) (by with_unfolding_all decide) ts hts hne
      exact ⟨_, hp, hlen⟩
    · rcases hmk with rfl | rfl
      · obtain ⟨vs, hlen, hp⟩ := fixedLoop_marker_start hdr2 "Deep copy 2X"
          ⟨"TMA Multicast", true, none, []⟩
          ⟨"TMA Multicast", true, some "2X", []⟩
          (by with_unfolding_all decide) k1 k2 k3 k4 k5 ts hts hne
          (lookaheadFix_marker ⟨"TMA Multicast", true, none, []⟩ rfl _) rfl (by simp)
        exact ⟨_, hp, hlen⟩
      · obtain ⟨vs, hlen, hp⟩ := fixedLoop_marker_start hdr2 "Deep copy 4X"
          ⟨"TMA Multicast", true, none, []⟩
          ⟨"TMA Multicast", true, some "4X", []⟩
          (by with_unfolding_all decide) j1 j2 j3 j4 j5 ts hts hne
          (lookaheadFix_marker4 ⟨"TMA Multicast", true, none, []⟩ rfl _) rfl (by simp)
        exact ⟨_, hp, hlen⟩
    · rcases hmk with rfl | rfl
      · exact processPieces_marker hdr2 "Deep copy 2X" (by decide) (by decide)
          (Or.inl (by decide)) ts hts
      · exact processPieces_marker hdr2 "Deep copy 4X" (by decide) (by decide)
          (Or.inr ⟨by decide, by decide⟩) ts hts
  · refine ⟨?_, ?_, ?_, ?_⟩
    · obtain ⟨vs, hlen, hp⟩ := fixedLoop_start hdr3
        ⟨"TMA No Multicast", false, none, []⟩
        (by with_unfolding_all decide) rfl ts hts hne
      exact ⟨_, hp, hlen⟩
    · obtain ⟨vs, hlen, hp⟩ := processPieces_section hdr3 "TMA No Multicast" false "Unknown"
        (by decide) (by with_unfolding_all decide) ts hts hne
      exact ⟨_, hp, hlen⟩
    · rcases hmk with rfl | rfl
      · obtain ⟨vs, hlen, hp⟩ := fixedLoop_marker_start hdr3 "Deep copy 2X"
          ⟨"TMA No Multicast", false, none, []⟩
          ⟨"TMA No Multicast", false, some "2X", []⟩
          (by with_unfolding_all decide) k1 k2 k3 k4 k5 ts hts hne
          (lookaheadFix_marker ⟨"TMA No Multicast", false, none, []⟩ rfl _) rfl (by simp)
        exact ⟨_, hp, hlen⟩
      · obtain ⟨vs, hlen, hp⟩ := fixedLoop_marker_start hdr3 "Deep copy 4X"
          ⟨"TMA No Multicast", false, none, []⟩
          ⟨"TMA No Multicast", false, some "4X", []⟩
          (by with_unfolding_all decide) j1 j2 j3 j4 j5 ts hts hne
          (lookaheadFix_marker4 ⟨"TMA No Multicast", false, none, []⟩ rfl _) rfl (by simp)
        exact ⟨_, hp, hlen⟩
    · rcases hmk with rfl | rfl
      · exact processPieces_marker hdr3 "Deep copy 2X" (by decide) (by decide)
          (Or.inl (by decide)) ts hts
      · exact processPieces_marker hdr3 "Deep copy 4X" (by decide) (by decide)
          (Or.inr ⟨by decide, by decide⟩) ts hts

set_option maxRecDepth 40000 in
/-- Witness for the amended C1 at a concrete one-trial multicast section
with the `Deep copy 4X` marker. -/
theorem spec_C1_witness :
    (∃ tc, parse_fixed (hdr2 :: (["Trial 1: Completed in 0.5ms"] ++ ["Success"])) =
      some [tc] ∧ tc.times.length = ["Trial 1: Completed in 0.5ms"].length) ∧
    (∃ tc, parse_correct (hdr2 :: (["Trial 1: Completed in 0.5ms"] ++ ["Success"])) =
      some [tc] ∧ tc.times.length = ["Trial 1: Completed in 0.5ms"].length) ∧
    (∃ tc, parse_fixed (hdr2 :: "Deep copy 4X" ::
        (["Trial 1: Completed in 0.5ms"] ++ ["Success"])) =
      some [tc] ∧ tc.times.length = ["Trial 1: Completed in 0.5ms"].length) ∧
    parse_correct (hdr2 :: "Deep copy 4X" ::
        (["Trial 1: Completed in 0.5ms"] ++ ["Success"])) = some [] :=
  spec_C1_thm hdr2 (Or.inr (Or.inl rfl)) "Deep copy 4X" (Or.inr rfl)
    ["Trial 1: Completed in 0.5ms"]
    (by with_unfolding_all decide) (by decide)

set_option maxRecDepth 40000 in
/-- Claim C3, amended: a multicast or no-multicast section with no depth
marker does not crash either content-based parser; the regex variant
defaults the depth to the sentinel `"Unknown"`, but the line-scanning
variant leaves `deep_copy` as Python `None` (no sentinel). -/
theorem spec_C3_thm (hdr : String) (hh : hdr = hdr2 ∨ hdr = hdr3)
    (ts : List String) (hts : ∀ l ∈ ts, isGoodTrial l = true) (hne : ts ≠ []) :
    (∃ tc, parse_correct (hdr :: (ts ++ ["Success"])) = some [tc] ∧
      tc.deep_copy = some "Unknown" ∧ tc.times.length = ts.length) ∧
    (∃ tc, parse_fixed (hdr :: (ts ++ ["Success"])) = some [tc] ∧
      tc.deep_copy = none ∧ tc.times.length = ts.length) := by
  rcases hh with rfl | rfl
  · constructor
    · obtain ⟨vs, hlen, hp⟩ := processPieces_section hdr2 "TMA Multicast" true "Unknown"
        (by decide) (by with_unfolding_all decide) ts hts hne
      exact ⟨_, hp, rfl, hlen⟩
    · obtain ⟨vs, hlen, hp⟩ := fixedLoop_start hdr2
        ⟨"TMA Multicast", true, none, []⟩
        (by with_unfolding_all decide) rfl ts hts hne
      exact ⟨_, hp, rfl, hlen⟩
  · constructor
    · obtain ⟨vs, hlen, hp⟩ := processPieces_section hdr3 "TMA No Multicast" false "Unknown"
        (by decide) (by with_unfolding_all decide) ts hts hne
      exact ⟨_, hp, rfl, hlen⟩
    · obtain ⟨vs, hlen, hp⟩ := fixedLoop_start hdr3
        ⟨"TMA No Multicast", false, none, []⟩
        (by with_unfolding_all decide) rfl ts hts hne
      exact ⟨_, hp, rfl, hlen⟩

set_option maxRecDepth 40000 in
/-- Witness for the amended C3 at a concrete one-trial no-multicast
section. -/
theorem spec_C3_witness :
    (∃ tc, parse_correct (hdr3 :: (["Trial 1: Completed in 0.5ms"] ++ ["Success"])) =
      some [tc] ∧ tc.deep_copy = some "Unknown" ∧
      tc.times.length = ["Trial 1: Completed in 0.5ms"].length) ∧
    (∃ tc, parse_fixed (hdr3 :: (["Trial 1: Completed in 0.5ms"] ++ ["Success"])) =
      some [tc] ∧ tc.deep_copy = none ∧
      tc.times.length = ["Trial 1: Completed in 0.5ms"].length) :=
  spec_C3_thm hdr3 (Or.inr rfl) ["Trial 1: Completed in 0.5ms"]
    (by with_unfolding_all decide) (by decide)

/-- Claim C7, amended: a line that contains `Trial` and `Completed in` but
on which the regex finds no `Completed in <float>ms` token is silently
skipped — it contributes no time, nothing is recorded anywhere (the
scripts keep no error log), and processing of the remaining lines
continues — in the regex variant's trial scan, the line-scanning
variant's main loop, and the per-line handling shared with the manual
variant.  (When the regex DOES capture a token that is not a valid float,
the run aborts instead; see the counterexample.) -/
theorem spec_C7_thm (l : String) (rest : List String) (cur : TestCase)
    (acc : List TestCase)
    (h1 : containsSub "Trial".data l.data = true)
    (h2 : containsSub "Completed in".data l.data = true)
    (h3 : findCompleted l.data = none)
    (h4 : containsSub hdr1.data l.data = false)
    (h5 : containsSub hdr2.data l.data = false)
    (h6 : containsSub hdr3.data l.data = false)
    (h7 : startsWithL "Success".data l.data = false)
    (h8 : strip l = l) :
    trialOfLine l = some none ∧
    extractTimes (l :: rest) = extractTimes rest ∧
    fixedLoop (l :: rest) (some cur) acc =
      fixedLoop rest (lookaheadFix (some cur) rest) acc := by
  have htr : trialOfLine l = some none := by
    rw [trialOfLine, h1, h2]
    simp only [Bool.and_self, if_true]
    rw [h3]
  refine ⟨htr, ?_, ?_⟩
  · rw [extractTimes, htr]
  · rw [fixedLoop]
    have hstep : fixedStep (strip l) (some cur) acc = some (some cur, acc) := by
      rw [h8, fixedStep, h4, h5, h6]
      simp only [Bool.false_eq_true, if_false]
      cases hT : startsWithL "Trial".data l.data with
      | true =>
        rw [h2]
        simp only [Bool.and_self, if_true]
        rw [h3]
      | false =>
        simp only [Bool.false_and, Bool.false_eq_true, if_false]
        rw [h7]
        simp
    rw [hstep]

set_option maxRecDepth 20000 in
/-- Witness for the amended C7: the line `Trial 1: Completed in xyzms` is
skipped and processing continues. -/
theorem spec_C7_witness :
    trialOfLine "Trial 1: Completed in xyzms" = some none ∧
    extractTimes ("Trial 1: Completed in xyzms" :: ["Trial 2: Completed in 3ms"]) =
      extractTimes ["Trial 2: Completed in 3ms"] ∧
    fixedLoop ("Trial 1: Completed in xyzms" :: ["Trial 2: Completed in 3ms"])
        (some ⟨"TMA Multicast", true, some "2X", [5]⟩) [] =
      fixedLoop ["Trial 2: Completed in 3ms"]
        (lookaheadFix (some ⟨"TMA Multicast", true, some "2X", [5]⟩)
          ["Trial 2: Completed in 3ms"]) [] :=
  spec_C7_thm "Trial 1: Completed in xyzms" ["Trial 2: Completed in 3ms"]
    ⟨"TMA Multicast", true, some "2X", [5]⟩ []
    (by decide) (by decide) (by decide) (by decide) (by decide) (by decide)
    (by decide) (by with_unfolding_all decide)

end Perf
